import Mathlib

/-!
Verification development for the pullio repository: a tool that discovers
Git working trees under a root directory, bootstraps an ssh-agent, and
concurrently checks out and pulls the default branch of each repository.

The embedding cuts at the subprocess boundary: every external command
(git, ssh-agent, ssh-add) is modelled by an oracle record holding the
trimmed output (or failure) the command would produce, and the Go
functions are translated into pure Lean functions over those oracles.
The goroutine/semaphore fan-out in main is modelled as a small-step
scheduler over an explicit batch state.
-/

namespace Pullio

/-! ## String primitives

Structural re-implementations (over character lists) of the Go standard
library helpers used by the source: strings.Contains, strings.Fields,
strings.Split (single-character separators only, which is all the source
uses), strings.TrimPrefix, filepath.Base, filepath.Dir, filepath.Join.
All are plain structural recursions so that concrete instances reduce. -/

/-- Does the second list start with the first list? -/
def listHasPre : List Char → List Char → Bool
  | [], _ => true
  | _ :: _, [] => false
  | a :: as, b :: bs => a == b && listHasPre as bs

/-- strings.Contains on character lists: the needle occurs contiguously in
the haystack. -/
def strContainsList : List Char → List Char → Bool
  | [], needle => needle.isEmpty
  | c :: cs, needle => listHasPre needle (c :: cs) || strContainsList cs needle

/-- Go strings.Contains(hay, needle). -/
def strContains (hay needle : String) : Bool :=
  strContainsList hay.data needle.data

/-- Go strings.HasPrefix(s, pre). -/
def strHasPre (s pre : String) : Bool :=
  listHasPre pre.data s.data

/-- Split a character list at every occurrence of the separator character.
Mirrors Go strings.Split with a one-character separator: always returns at
least one (possibly empty) piece. -/
def splitChar (sep : Char) : List Char → List (List Char)
  | [] => [[]]
  | c :: cs =>
    match splitChar sep cs with
    | [] => [[]]
    | h :: t => if c == sep then [] :: h :: t else (c :: h) :: t

/-- Go strings.Split(s, sep) for a one-character separator. -/
def splitStr (sep : Char) (s : String) : List String :=
  (splitChar sep s.data).map String.mk

/-- Split a character list at every character satisfying the predicate. -/
def splitPred (p : Char → Bool) : List Char → List (List Char)
  | [] => [[]]
  | c :: cs =>
    match splitPred p cs with
    | [] => [[]]
    | h :: t => if p c then [] :: h :: t else (c :: h) :: t

/-- Go strings.Fields: the maximal runs of non-whitespace characters. -/
def fieldsOf (s : String) : List String :=
  ((splitPred Char.isWhitespace s.data).filter (fun l => !l.isEmpty)).map String.mk

/-- If the first list is a prefix of the second, return the remainder. -/
def stripPre : List Char → List Char → Option (List Char)
  | [], s => some s
  | _ :: _, [] => none
  | p :: ps, c :: cs => if p == c then stripPre ps cs else none

/-- Go strings.TrimPrefix(s, pre): s without pre when pre leads s,
otherwise s unchanged. -/
def trimPre (pre s : String) : String :=
  match stripPre pre.data s.data with
  | some rest => String.mk rest
  | none => s

/-- Remove trailing slash characters. -/
def dropSlashesEnd (cs : List Char) : List Char :=
  (cs.reverse.dropWhile (fun c => c == '/')).reverse

/-- The suffix after the final slash. -/
def lastComp (cs : List Char) : List Char :=
  (cs.reverse.takeWhile (fun c => c != '/')).reverse

/-- Go filepath.Base on character lists: empty path gives ".", an
all-slash path gives "/", otherwise the component after the final slash
once trailing slashes are removed. -/
def baseChars (cs : List Char) : List Char :=
  if cs.isEmpty then ['.']
  else
    let s := dropSlashesEnd cs
    if s.isEmpty then ['/'] else lastComp s

/-- Go filepath.Base. -/
def pathBase (p : String) : String := String.mk (baseChars p.data)

/-- Go filepath.Dir on character lists: drop trailing slashes, drop the
final component, drop the slashes before it; empty result collapses to
"/" for absolute paths and "." otherwise. -/
def dirChars (cs : List Char) : List Char :=
  let s := dropSlashesEnd cs
  let d := dropSlashesEnd ((s.reverse.dropWhile (fun c => c != '/')).reverse)
  if d.isEmpty then (if listHasPre ['/'] cs then ['/'] else ['.']) else d

/-- Go filepath.Dir. -/
def pathDir (p : String) : String := String.mk (dirChars p.data)

/-- Go filepath.Join of two components, as used by the source (second
component is a plain relative name or a rooted remainder). -/
def joinPath (a b : String) : String :=
  if a.isEmpty then b
  else if b.isEmpty then a
  else if listHasPre ['/'] b.data then a ++ b
  else a ++ "/" ++ b

/-! ## Git oracle (internal/gitmanager/gitmanager.go)

The gitmanager functions shell out to git through runGitCommand, which
returns the whitespace-trimmed combined output on success and an error on
failure.  A RepoGit record is the oracle for one repository directory: for
each git invocation the source makes, it holds the trimmed output that
invocation would return (or its failure). -/

/-- Oracle for the git subprocess calls made against one repository
directory.  An Option String output field is some trimmed-output on
command success and none on command failure; an Option String error field
is some rendered-error-detail on failure and none on success. -/
structure RepoGit where
  /-- os.Stat(repoPath) does not report IsNotExist. -/
  dirExists : Bool
  /-- git rev-parse --is-inside-work-tree succeeds. -/
  isGitRepo : Bool
  /-- git remote get-url origin succeeds. -/
  hasOrigin : Bool
  /-- git symbolic-ref --quiet refs/remotes/origin/HEAD: trimmed output on
  success. -/
  symbolicRefOut : Option String
  /-- git remote show origin: trimmed output on success. -/
  remoteShowOut : Option String
  /-- git show-ref --quiet applied to the given fully qualified ref
  succeeds. -/
  showRefOk : String → Bool
  /-- git checkout -q applied to the given branch: rendered error detail
  on failure. -/
  checkoutErr : String → Option String
  /-- git pull --ff-only -q: rendered error detail on failure. -/
  pullFFErr : Option String
  /-- git pull -q: rendered error detail on failure. -/
  pullErr : Option String

/-- The result record produced for one repository
(gitmanager.RepoResult). -/
structure RepoResult where
  Path : String
  Branch : String
  Success : Bool
  ErrorMessage : String
deriving DecidableEq, Repr

/-- The git queries DetectDefaultBranch can issue, in the order issued
(its observable consultation trace). -/
inductive GitQuery where
  | symbolicRef
  | remoteShow
  | showRef (ref : String)
deriving DecidableEq, Repr

/-- The loop inside method 2 of DetectDefaultBranch: scan the output
lines of git remote show origin; on the first line containing
"HEAD branch:" whose whitespace-separated field list is non-empty, return
the last field. -/
def headBranchScan : List String → Option String
  | [] => none
  | line :: rest =>
    if strContains line "HEAD branch:" then
      match (fieldsOf line).getLast? with
      | some b => some b
      | none => headBranchScan rest
    else headBranchScan rest

/-- Method 3 of DetectDefaultBranch: try git show-ref --quiet
refs/heads/NAME for each fallback name in order; also records the show-ref
queries issued. -/
def fallbackScan (g : RepoGit) : List String → Option String × List GitQuery
  | [] => (none, [])
  | b :: bs =>
    if g.showRefOk ("refs/heads/" ++ b) then
      (some b, [GitQuery.showRef ("refs/heads/" ++ b)])
    else
      let r := fallbackScan g bs
      (r.1, GitQuery.showRef ("refs/heads/" ++ b) :: r.2)

/-- Package an optional branch the way the Go function returns it:
a found branch comes with no error, otherwise the branch string is empty
and the error is the one DetectDefaultBranch constructs. -/
def branchResult : Option String → String × Option String
  | some b => (b, none)
  | none => ("", some "could not detect default branch")

/-- gitmanager.DetectDefaultBranch.  Returns ((branch, error?), queries):
the (branch, error) pair exactly as the Go function returns it, paired
with the trace of git queries issued.  Method 1: symbolic-ref, stripping
the "refs/remotes/origin/" prefix.  Method 2: parse "HEAD branch:" out of
git remote show origin.  Method 3: first fallback name whose local head
ref exists. -/
def DetectDefaultBranch (g : RepoGit) (fallbacks : List String) :
    (String × Option String) × List GitQuery :=
  match g.symbolicRefOut with
  | some out =>
    ((trimPre "refs/remotes/origin/" out, none), [GitQuery.symbolicRef])
  | none =>
    match g.remoteShowOut with
    | some out =>
      match headBranchScan (splitStr '\n' out) with
      | some b => ((b, none), [GitQuery.symbolicRef, GitQuery.remoteShow])
      | none =>
        let r := fallbackScan g fallbacks
        (branchResult r.1, GitQuery.symbolicRef :: GitQuery.remoteShow :: r.2)
    | none =>
      let r := fallbackScan g fallbacks
      (branchResult r.1, GitQuery.symbolicRef :: GitQuery.remoteShow :: r.2)

/-- gitmanager.PullFastForwardOnly: git pull --ff-only -q against the
oracle. -/
def PullFastForwardOnly (g : RepoGit) : Option String := g.pullFFErr

/-- The Pull variant (plain git pull -q) of the second observed
gitmanager implementation. -/
def PullPlain (g : RepoGit) : Option String := g.pullErr

/-- The external operations ProcessRepository performs, in order: the
observable step trace of one repository update. -/
inductive GitOp where
  | statDir
  | revParse
  | remoteGetUrl
  | detect
  | checkout (branch : String)
  | pullFF
  | pullPlain
deriving DecidableEq, Repr

/-- Is this step one of the two synchronization policies? -/
def GitOp.isPull : GitOp → Bool
  | .pullFF => true
  | .pullPlain => true
  | _ => false

/-- gitmanager.ProcessRepository (the fast-forward-only variant in
internal/gitmanager/gitmanager.go).  Total: every input produces a
RepoResult.  Returns the result paired with the trace of operations
attempted. -/
def ProcessRepository (g : RepoGit) (repoPath : String)
    (defaultBranches : List String) : RepoResult × List GitOp :=
  let result : RepoResult := ⟨repoPath, "", false, ""⟩
  if !g.dirExists then
    ({ result with ErrorMessage := "Directory does not exist" },
     [GitOp.statDir])
  else if !g.isGitRepo then
    ({ result with ErrorMessage := "Not a Git repository" },
     [GitOp.statDir, GitOp.revParse])
  else if !g.hasOrigin then
    ({ result with ErrorMessage := "No origin remote" },
     [GitOp.statDir, GitOp.revParse, GitOp.remoteGetUrl])
  else
    match (DetectDefaultBranch g defaultBranches).1 with
    | (_, some e) =>
      ({ result with ErrorMessage := "Failed to detect default branch: " ++ e },
       [GitOp.statDir, GitOp.revParse, GitOp.remoteGetUrl, GitOp.detect])
    | (branch, none) =>
      match g.checkoutErr branch with
      | some e =>
        ((⟨repoPath, branch, false,
            "Failed to checkout branch " ++ branch ++ ": " ++ e⟩ : RepoResult),
         [GitOp.statDir, GitOp.revParse, GitOp.remoteGetUrl, GitOp.detect,
          GitOp.checkout branch])
      | none =>
        match PullFastForwardOnly g with
        | some e =>
          ((⟨repoPath, branch, false, "Failed to pull: " ++ e⟩ : RepoResult),
           [GitOp.statDir, GitOp.revParse, GitOp.remoteGetUrl, GitOp.detect,
            GitOp.checkout branch, GitOp.pullFF])
        | none =>
          ({ result with Branch := branch, Success := true },
           [GitOp.statDir, GitOp.revParse, GitOp.remoteGetUrl, GitOp.detect,
            GitOp.checkout branch, GitOp.pullFF])

/-- The second observed gitmanager.ProcessRepository variant: identical to
ProcessRepository except that step 6 invokes plain git pull -q. -/
def ProcessRepositoryPlain (g : RepoGit) (repoPath : String)
    (defaultBranches : List String) : RepoResult × List GitOp :=
  let result : RepoResult := ⟨repoPath, "", false, ""⟩
  if !g.dirExists then
    ({ result with ErrorMessage := "Directory does not exist" },
     [GitOp.statDir])
  else if !g.isGitRepo then
    ({ result with ErrorMessage := "Not a Git repository" },
     [GitOp.statDir, GitOp.revParse])
  else if !g.hasOrigin then
    ({ result with ErrorMessage := "No origin remote" },
     [GitOp.statDir, GitOp.revParse, GitOp.remoteGetUrl])
  else
    match (DetectDefaultBranch g defaultBranches).1 with
    | (_, some e) =>
      ({ result with ErrorMessage := "Failed to detect default branch: " ++ e },
       [GitOp.statDir, GitOp.revParse, GitOp.remoteGetUrl, GitOp.detect])
    | (branch, none) =>
      match g.checkoutErr branch with
      | some e =>
        ((⟨repoPath, branch, false,
            "Failed to checkout branch " ++ branch ++ ": " ++ e⟩ : RepoResult),
         [GitOp.statDir, GitOp.revParse, GitOp.remoteGetUrl, GitOp.detect,
          GitOp.checkout branch])
      | none =>
        match PullPlain g with
        | some e =>
          ((⟨repoPath, branch, false, "Failed to pull: " ++ e⟩ : RepoResult),
           [GitOp.statDir, GitOp.revParse, GitOp.remoteGetUrl, GitOp.detect,
            GitOp.checkout branch, GitOp.pullPlain])
        | none =>
          ({ result with Branch := branch, Success := true },
           [GitOp.statDir, GitOp.revParse, GitOp.remoteGetUrl, GitOp.detect,
            GitOp.checkout branch, GitOp.pullPlain])

/-! ## Repository locator (internal/utils/filesystem.go)

The filesystem is modelled as a rose tree of named directories and files.
FindGitDirs first checks whether the root itself holds a ".git" directory
and, if so, returns just that path without walking; otherwise it walks
the tree with the skip rules of the source. -/

/-- A node of the modelled filesystem: a named directory with children,
or a named file. -/
inductive FSNode where
  | dir (name : String) (children : List FSNode)
  | file (name : String)

/-- The entry name of a node. -/
def FSNode.name : FSNode → String
  | .dir n _ => n
  | .file n => n

/-- Is the node a directory? -/
def FSNode.isDir : FSNode → Bool
  | .dir _ _ => true
  | .file _ => false

/-- Does this child list contain a directory named ".git"?  Models
Stat(Join(path, ".git")) succeeding with IsDir. -/
def hasGitChildDir (children : List FSNode) : Bool :=
  children.any (fun c => c.isDir && c.name == ".git")

/-- The walk's exclusion rule on directory names: dependency caches,
build outputs, dot-directories and the control directory itself. -/
def skipDirName (name : String) : Bool :=
  name == "node_modules" || name == ".git" || listHasPre ['.'] name.data ||
  name == "vendor" || name == "dist" || name == "build" || name == "target"

mutual

/-- The WalkDir callback of FindGitDirs, applied to one node: files are
ignored; an excluded directory name skips the subtree; a directory owning
a ".git" directory contributes Join(path, ".git") and is not descended
into; otherwise the children are visited in order. -/
def walkNode : FSNode → String → List String
  | .file _, _ => []
  | .dir name children, path =>
    if skipDirName name then []
    else if hasGitChildDir children then [joinPath path ".git"]
    else walkChildren children path

/-- Visit a directory's children in order, accumulating found ".git"
paths. -/
def walkChildren : List FSNode → String → List String
  | [], _ => []
  | c :: cs, path => walkNode c (joinPath path c.name) ++ walkChildren cs path

end

/-- utils.FindGitDirs: if the root itself holds a ".git" directory,
return exactly that one path, bypassing the subtree walk; otherwise walk
the tree from the root. -/
def FindGitDirs (root : FSNode) (rootPath : String) : List String :=
  match root with
  | .dir n children =>
    if hasGitChildDir children then [joinPath rootPath ".git"]
    else walkNode (FSNode.dir n children) rootPath
  | .file n => walkNode (FSNode.file n) rootPath

/-! ## Batch orchestrator (cmd/pullio/main.go)

main dispatches one goroutine per discovered repository, gated by a
buffered channel of capacity concurrentFlag used as a counting semaphore:
the main loop blocks on acquiring a slot before spawning each goroutine,
and each goroutine releases its slot when it finishes, after sending its
result on a buffered channel that the collection loop drains after all
workers are done.  The model is a small-step scheduler: a state holds the
not-yet-dispatched tasks (in submission order), the currently running
tasks, and the collected results (in arrival order); a schedule is the
sequence of dispatch/complete choices the runtime happens to make. -/

/-- The scheduler state of the batch: tasks not yet admitted, tasks
holding a semaphore slot, and outcomes collected so far in arrival
order. -/
structure BatchState where
  pending : List String
  running : List String
  done : List RepoResult
deriving DecidableEq, Repr

/-- One nondeterministic choice of the runtime: admit the next pending
task into a free slot, or let one running task finish. -/
inductive SchedChoice where
  | dispatch
  | complete (t : String)
deriving DecidableEq, Repr

/-- One scheduler step with concurrency limit K and per-task work f.
Dispatch admits the head of the pending queue (main acquires slots in
submission order) and requires a free slot; complete finishes a running
task, appending its outcome and releasing its slot.  Invalid choices
produce none. -/
def stepBatch (K : Nat) (f : String → RepoResult) (s : BatchState) :
    SchedChoice → Option BatchState
  | .dispatch =>
    match s.pending with
    | [] => none
    | t :: ts =>
      if s.running.length < K then some ⟨ts, s.running ++ [t], s.done⟩
      else none
  | .complete t =>
    if t ∈ s.running then
      some ⟨s.pending, s.running.erase t, s.done ++ [f t]⟩
    else none

/-- Run a schedule from a state, failing if any choice is invalid. -/
def runSched (K : Nat) (f : String → RepoResult) :
    List SchedChoice → BatchState → Option BatchState
  | [], s => some s
  | c :: cs, s =>
    match stepBatch K f s c with
    | some s2 => runSched K f cs s2
    | none => none

/-- The initial batch state: all tasks pending, nothing running or
done. -/
def initState (tasks : List String) : BatchState := ⟨tasks, [], []⟩

/-- Every task has been dispatched and has reported. -/
def batchDone (s : BatchState) : Bool := s.pending.isEmpty && s.running.isEmpty

/-- The per-task work main performs: process the repository at the task
path against its git oracle and keep the outcome record. -/
def procOutcome (world : String → RepoGit) (fb : List String)
    (p : String) : RepoResult :=
  (ProcessRepository (world p) p fb).1

/-- The fan-out/fan-in of main: run the schedule from the initial state
and, only once every dispatched task has reported, partition the
collected outcomes by their success flag (succeeded first, failed
second), each partition in arrival order. -/
def runBatch (K : Nat) (f : String → RepoResult) (tasks : List String)
    (sched : List SchedChoice) : Option (List RepoResult × List RepoResult) :=
  match runSched K f sched (initState tasks) with
  | some s => if batchDone s then some (s.done.partition (fun r => r.Success)) else none
  | none => none

/-! ## Credential agent bootstrap (internal/sshagent/sshagent.go)

The process environment, the filesystem probe for the key, the agent
socket, and the agent's identity list are modelled in one AgentWorld
record that EnsureAgentAndKey reads and updates.  The effect of a
successful ssh-add is modelled as the agent gaining one identity whose
comment is the key's path, which is how a stock agent labels a key added
by file name; the source relies on that comment containing the key's base
filename when it tests whether the key is already loaded.  Only the
non-Windows branch of the source is modelled. -/

/-- The external state EnsureAgentAndKey interacts with: home directory,
key-file existence probe, the SSH_AUTH_SOCK / SSH_AGENT_PID environment
variables (empty string = unset), the output of launching ssh-agent -s
(none = launch fails), socket connectivity, and the agent's identity
comments (listOk = whether listing succeeds, addOk = whether ssh-add
succeeds). -/
structure AgentWorld where
  homeDir : String
  keyExists : String → Bool
  authSock : String
  agentPid : String
  startAgentOutput : Option String
  dialOk : String → Bool
  listOk : Bool
  agentKeys : List String
  addOk : Bool

/-- The tilde expansion at the top of EnsureAgentAndKey: a key path
beginning with "~" is joined onto the home directory. -/
def expandKeyPath (w : AgentWorld) (keyArg : String) : String :=
  if listHasPre ['~'] keyArg.data then
    joinPath w.homeDir (String.mk (keyArg.data.drop 1))
  else keyArg

/-- Extract the value assigned on an env-announcement line, as the source
parses it: split the line at ";", split the first piece at "=", and take
the piece after the first "=" when there is one. -/
def envLineValue (line : String) : Option String :=
  match splitStr ';' line with
  | [] => none
  | p0 :: _ =>
    match splitStr '=' p0 with
    | _ :: v :: _ => some v
    | _ => none

/-- The parsing loop of startSSHAgent: scan the announcement lines; a
line containing "SSH_AUTH_SOCK=" sets the socket variable, otherwise a
line containing "SSH_AGENT_PID=" sets the pid variable. -/
def parseAgentLines : AgentWorld → List String → AgentWorld
  | w, [] => w
  | w, line :: rest =>
    if strContains line "SSH_AUTH_SOCK=" then
      parseAgentLines
        (match envLineValue line with
         | some v => { w with authSock := v }
         | none => w) rest
    else if strContains line "SSH_AGENT_PID=" then
      parseAgentLines
        (match envLineValue line with
         | some v => { w with agentPid := v }
         | none => w) rest
    else parseAgentLines w rest

/-- sshagent.startSSHAgent (non-Windows branch): launch ssh-agent -s,
parse its announcement into the environment, and fail if SSH_AUTH_SOCK is
still unset afterwards. -/
def startSSHAgent (w : AgentWorld) : Except String AgentWorld :=
  match w.startAgentOutput with
  | none => Except.error "ssh-agent command failed"
  | some out =>
    let w2 := parseAgentLines w (splitStr '\n' out)
    if w2.authSock == "" then
      Except.error "failed to set SSH_AUTH_SOCK environment variable"
    else Except.ok w2

/-- The agent-reachability stage of EnsureAgentAndKey: when
SSH_AUTH_SOCK is unset, start an agent and fail if the variable is still
empty afterwards (the source checks this twice: inside startSSHAgent and
again at the call site); when it is already set, proceed unchanged. -/
def ensureAuthSock (w : AgentWorld) : Except String AgentWorld :=
  if w.authSock == "" then
    match startSSHAgent w with
    | Except.error e => Except.error ("failed to start ssh-agent: " ++ e)
    | Except.ok w2 =>
      if w2.authSock == "" then
        Except.error "SSH_AUTH_SOCK is still empty after starting ssh-agent"
      else Except.ok w2
  else Except.ok w

/-- sshagent.EnsureAgentAndKey: expand and validate the key path; start
an agent if SSH_AUTH_SOCK is unset; connect and list the held
identities; if no held identity's comment contains the key's base
filename, add the key.  Returns the updated world on success and the
rendered error on failure. -/
def EnsureAgentAndKey (w : AgentWorld) (keyArg : String) :
    Except String AgentWorld :=
  let sshKeyPath := expandKeyPath w keyArg
  if !w.keyExists sshKeyPath then
    Except.error ("SSH key does not exist: " ++ sshKeyPath)
  else
    match ensureAuthSock w with
    | Except.error e => Except.error e
    | Except.ok w1 =>
      if !w1.dialOk w1.authSock then
        Except.error ("failed to connect to SSH agent socket at " ++ w1.authSock)
      else if !w1.listOk then
        Except.error "failed to list keys from SSH agent"
      else if w1.agentKeys.any (fun k => strContains k (pathBase sshKeyPath)) then
        Except.ok w1
      else if w1.addOk then
        Except.ok { w1 with agentKeys := w1.agentKeys ++ [sshKeyPath] }
      else
        Except.error ("failed to add SSH key " ++ sshKeyPath ++ " to agent")

/-! ## The main program (cmd/pullio/main.go)

main is modelled as a trace-producing function: the observable events it
emits in order, plus the process exit code.  logger.Fatal prints its
message and exits with status 1. -/

/-- The observable milestones of one run of main. -/
inductive MainEvent where
  | agentInit
  | fatalExit (msg : String)
  | findRepos
  | processed (path : String)
  | summary
deriving DecidableEq, Repr

/-- The inputs main consumes: the agent world and key flag, the outcome
of repository discovery, the git oracle per repository path, the fallback
branch list, and the concurrency flag. -/
structure MainWorld where
  agent : AgentWorld
  sshKeyFlag : String
  findResult : Except String (List String)
  gitWorld : String → RepoGit
  defaultBranches : List String
  concurrent : Nat

/-- cmd/pullio/main.main: bootstrap the agent (logger.Fatal on failure),
discover repositories (logger.Fatal on failure), return early when none
are found, otherwise run the concurrent batch over the parent directory
of each discovered ".git" path and print the summary.  The schedule
argument resolves the runtime's nondeterministic interleaving; a schedule
that gets stuck or leaves work outstanding yields none (the real program
always waits for every worker). -/
def mainRun (w : MainWorld) (sched : List SchedChoice) :
    Option (List MainEvent × Nat) :=
  match EnsureAgentAndKey w.agent w.sshKeyFlag with
  | Except.error e =>
    some ([MainEvent.agentInit,
           MainEvent.fatalExit ("SSH Agent setup failed: " ++ e)], 1)
  | Except.ok _ =>
    match w.findResult with
    | Except.error e =>
      some ([MainEvent.agentInit, MainEvent.findRepos,
             MainEvent.fatalExit ("Failed to find Git directories: " ++ e)], 1)
    | Except.ok gitDirs =>
      if gitDirs.isEmpty then
        some ([MainEvent.agentInit, MainEvent.findRepos], 0)
      else
        match runSched w.concurrent
            (procOutcome w.gitWorld w.defaultBranches)
            sched (initState (gitDirs.map pathDir)) with
        | none => none
        | some s =>
          if batchDone s then
            some ([MainEvent.agentInit, MainEvent.findRepos] ++
                  s.done.map (fun r => MainEvent.processed r.Path) ++
                  [MainEvent.summary], 0)
          else none

/-- A concrete oracle used by witnesses: an existing working tree with no
origin remote configured. -/
def sampleNoOrigin : RepoGit :=
  ⟨true, true, false, none, none, fun _ => false, fun _ => none, none, none⟩

/-! ## Helper lemmas -/

/-- Method 3 returns the first fallback name whose local head ref
exists. -/
theorem fallbackScan_fst (g : RepoGit) (bs : List String) :
    (fallbackScan g bs).1 = bs.find? (fun b => g.showRefOk ("refs/heads/" ++ b)) := by
  induction bs with
  | nil => simp [fallbackScan]
  | cons b bs ih =>
    rw [fallbackScan, List.find?_cons]
    cases h : g.showRefOk ("refs/heads/" ++ b) <;> simp [h, ih]

/-- The method-2 scan agrees with: last field of the first line containing
the marker, provided that line has any fields. -/
theorem headBranchScan_find (lines : List String) (line : String)
    (hf : lines.find? (fun l => strContains l "HEAD branch:") = some line)
    (hne : fieldsOf line ≠ []) :
    headBranchScan lines = some ((fieldsOf line).getLast hne) := by
  induction lines with
  | nil => simp at hf
  | cons l ls ih =>
    rw [List.find?_cons] at hf
    cases hc : strContains l "HEAD branch:" with
    | true =>
      rw [hc] at hf
      simp only [] at hf
      cases hf
      rw [headBranchScan, if_pos hc, List.getLast?_eq_getLast _ hne]
    | false =>
      rw [hc] at hf
      simp only [] at hf
      rw [headBranchScan, if_neg (by simp [hc])]
      exact ih hf

/-- If no output line contains the marker, the method-2 scan finds
nothing. -/
theorem headBranchScan_none (lines : List String)
    (h : ∀ l ∈ lines, strContains l "HEAD branch:" = false) :
    headBranchScan lines = none := by
  induction lines with
  | nil => rfl
  | cons l ls ih =>
    rw [headBranchScan, if_neg (by simp [h l (by simp)])]
    exact ih (fun x hx => h x (by simp [hx]))

/-! ## C1: branch-resolution priority order -/

/-- Claim C1: DetectDefaultBranch tries its three strategies in fixed
priority order.  If the symbolic-reference query succeeds, it returns that
output with the "refs/remotes/origin/" prefix stripped, and its query
trace is exactly the one symbolic-ref query (no remote introspection, no
fallback enumeration).  If the symbolic-ref and remote-show commands both
fail, the result is the first fallback name whose local head ref exists
(earlier names win), and when no strategy succeeds it returns an empty
branch name together with the error. -/
theorem detectDefaultBranch_priority (g : RepoGit) (fb : List String) :
    (∀ out, g.symbolicRefOut = some out →
      DetectDefaultBranch g fb =
        ((trimPre "refs/remotes/origin/" out, none), [GitQuery.symbolicRef])) ∧
    (g.symbolicRefOut = none → g.remoteShowOut = none →
      (DetectDefaultBranch g fb).1 =
        branchResult (fb.find? (fun b => g.showRefOk ("refs/heads/" ++ b)))) := by
  constructor
  · intro out h
    simp [DetectDefaultBranch, h]
  · intro h1 h2
    simp [DetectDefaultBranch, h1, h2, fallbackScan_fst]

/-- Witness for C1 at concrete repositories: a symbolic ref pointing at
main is returned stripped without further queries, and with both remote
strategies failing and only master existing locally, the fallback list
["main", "master"] resolves to master; with no strategy succeeding the
branch is empty and an error is reported. -/
theorem detectDefaultBranch_priority_witness :
    DetectDefaultBranch
        ⟨true, true, true, some "refs/remotes/origin/main", none,
         fun _ => false, fun _ => none, none, none⟩ ["main", "master"] =
      (("main", none), [GitQuery.symbolicRef]) ∧
    (DetectDefaultBranch
        ⟨true, true, true, none, none,
         fun r => r == "refs/heads/master", fun _ => none, none, none⟩
        ["main", "master"]).1 = ("master", none) ∧
    (DetectDefaultBranch
        ⟨true, true, true, none, none,
         fun _ => false, fun _ => none, none, none⟩
        ["main", "master"]).1 = ("", some "could not detect default branch") := by
  refine ⟨?_, ?_, ?_⟩
  · exact (detectDefaultBranch_priority _ _).1 "refs/remotes/origin/main" rfl
  · exact (detectDefaultBranch_priority _ _).2 rfl rfl
  · exact (detectDefaultBranch_priority _ _).2 rfl rfl

/-! ## C10: remote-introspection parsing -/

/-- Claim C10: when the symbolic-reference strategy fails and the
remote-show command succeeds, DetectDefaultBranch returns the last
whitespace-separated token of the first output line containing
"HEAD branch:"; and when the command succeeds but no line contains that
marker, resolution falls through to fallback enumeration without
reporting an error from method 2. -/
theorem detectDefaultBranch_remoteShow (g : RepoGit) (fb : List String)
    (out : String)
    (h1 : g.symbolicRefOut = none) (h2 : g.remoteShowOut = some out) :
    (∀ line,
      (splitStr '\n' out).find? (fun l => strContains l "HEAD branch:") = some line →
      ∀ hne : fieldsOf line ≠ [],
        (DetectDefaultBranch g fb).1 = ((fieldsOf line).getLast hne, none)) ∧
    ((∀ l ∈ splitStr '\n' out, strContains l "HEAD branch:" = false) →
      (DetectDefaultBranch g fb).1 =
        branchResult (fb.find? (fun b => g.showRefOk ("refs/heads/" ++ b)))) := by
  constructor
  · intro line hf hne
    simp [DetectDefaultBranch, h1, h2, headBranchScan_find _ _ hf hne]
  · intro hnone
    simp [DetectDefaultBranch, h1, h2, headBranchScan_none _ hnone,
      fallbackScan_fst]

/-- Witness for C10: a remote advertising "HEAD branch: (unknown)" makes
the resolver return the literal branch name "(unknown)". -/
theorem detectDefaultBranch_remoteShow_witness :
    (DetectDefaultBranch
        ⟨true, true, true, none, some "  HEAD branch: (unknown)",
         fun _ => false, fun _ => none, none, none⟩ ["main"]).1 =
      ("(unknown)", none) := by
  exact (detectDefaultBranch_remoteShow _ ["main"] "  HEAD branch: (unknown)"
    rfl rfl).1 "  HEAD branch: (unknown)" (by decide) (by decide)

/-! ## C4: missing origin remote short-circuits -/

/-- Claim C4: ProcessRepository is a total function (it never raises:
every input yields a RepoResult), and on a repository directory that
exists and is a working tree but has no origin remote, the outcome is
failure with reason "No origin remote", the branch field left empty, and
the operation trace stops at the remote-presence check: no branch
detection, no checkout and no pull is attempted. -/
theorem processRepository_noOrigin (g : RepoGit) (p : String)
    (fb : List String)
    (hd : g.dirExists = true) (hr : g.isGitRepo = true)
    (ho : g.hasOrigin = false) :
    ProcessRepository g p fb =
      (⟨p, "", false, "No origin remote"⟩,
       [GitOp.statDir, GitOp.revParse, GitOp.remoteGetUrl]) := by
  simp [ProcessRepository, hd, hr, ho]

/-- Witness for C4 at a concrete repository with no origin remote. -/
theorem processRepository_noOrigin_witness :
    ProcessRepository
        ⟨true, true, false, some "refs/remotes/origin/main", none,
         fun _ => false, fun _ => none, none, none⟩ "/repos/a" ["main"] =
      (⟨"/repos/a", "", false, "No origin remote"⟩,
       [GitOp.statDir, GitOp.revParse, GitOp.remoteGetUrl]) := by
  exact processRepository_noOrigin _ _ _ rfl rfl rfl

/-! ## C5: pull failure keeps the resolved branch -/

/-- Claim C5: when branch resolution and checkout succeed but the
fast-forward pull fails, ProcessRepository returns a failed outcome whose
Branch field still carries the resolved branch and whose error message is
"Failed to pull: " followed by the failure detail. -/
theorem processRepository_pullFailure (g : RepoGit) (p b e : String)
    (fb : List String)
    (hd : g.dirExists = true) (hr : g.isGitRepo = true)
    (ho : g.hasOrigin = true)
    (hb : (DetectDefaultBranch g fb).1 = (b, none))
    (hc : g.checkoutErr b = none)
    (hp : g.pullFFErr = some e) :
    (ProcessRepository g p fb).1 = ⟨p, b, false, "Failed to pull: " ++ e⟩ := by
  simp [ProcessRepository, hd, hr, ho, hb, hc, PullFastForwardOnly, hp]

/-- Witness for C5: checkout of main succeeds but the fast-forward pull
reports diverged history. -/
theorem processRepository_pullFailure_witness :
    (ProcessRepository
        ⟨true, true, true, some "refs/remotes/origin/main", none,
         fun _ => false, fun _ => none,
         some "git command failed: exit status 1: fatal: Not possible to fast-forward, aborting.",
         none⟩ "/repos/a" ["main"]).1 =
      ⟨"/repos/a", "main", false,
       "Failed to pull: git command failed: exit status 1: fatal: Not possible to fast-forward, aborting."⟩ := by
  exact processRepository_pullFailure _ _ "main" _ _ rfl rfl rfl (by decide)
    rfl rfl

/-! ## C8: a root that is itself a repository -/

/-- Claim C8: when the root directory itself holds a ".git" directory,
FindGitDirs returns exactly the one-element list with that
control-metadata path, whatever the rest of the subtree holds (nested
repositories beneath the root are ignored and the walk never runs). -/
theorem findGitDirs_rootRepo (name : String) (children : List FSNode)
    (rootPath : String) (h : hasGitChildDir children = true) :
    FindGitDirs (FSNode.dir name children) rootPath =
      [joinPath rootPath ".git"] := by
  simp [FindGitDirs, h]

/-- Witness for C8: a root repository with a nested repository deeper in
its tree still yields only the root's ".git" path. -/
theorem findGitDirs_rootRepo_witness :
    FindGitDirs
        (FSNode.dir "work"
          [FSNode.dir ".git" [],
           FSNode.dir "sub" [FSNode.dir ".git" []]]) "/work" =
      ["/work/.git"] := by
  exact findGitDirs_rootRepo _ _ _ (by decide)

/-! ## C9: the two synchronization-policy variants -/

/-- Claim C9: the fast-forward-only variant and the plain-pull variant of
the repository updater perform identical steps up to and including
checkout (their operation traces agree on every step before a
synchronization step), and whenever the two synchronization commands
return the same result the two variants return equal outcome records;
they differ only in the synchronization policy invoked at step 6. -/
theorem processRepository_variants (g : RepoGit) (p : String)
    (fb : List String) (h : g.pullFFErr = g.pullErr) :
    (ProcessRepository g p fb).2.takeWhile (fun o => !o.isPull) =
      (ProcessRepositoryPlain g p fb).2.takeWhile (fun o => !o.isPull) ∧
    (ProcessRepository g p fb).1 = (ProcessRepositoryPlain g p fb).1 := by
  unfold ProcessRepository ProcessRepositoryPlain PullFastForwardOnly PullPlain
  rw [← h]
  cases hd : g.dirExists with
  | false => simp
  | true =>
    cases hr : g.isGitRepo with
    | false => simp
    | true =>
      cases ho : g.hasOrigin with
      | false => simp
      | true =>
        simp only [Bool.not_true, if_neg]
        rcases hdet : (DetectDefaultBranch g fb).1 with ⟨b, err⟩
        cases err with
        | some e => simp [List.takeWhile, GitOp.isPull]
        | none =>
          cases hc : g.checkoutErr b with
          | some e => simp [hc, List.takeWhile, GitOp.isPull]
          | none =>
            cases hp : g.pullFFErr <;>
              simp [hc, hp, List.takeWhile, GitOp.isPull]

/-- Witness for C9 at a concrete repository where both pulls succeed: the
two variants agree step for step and produce the same successful
outcome. -/
theorem processRepository_variants_witness :
    (ProcessRepository
        ⟨true, true, true, some "refs/remotes/origin/main", none,
         fun _ => false, fun _ => none, none, none⟩ "/repos/a" ["main"]).2.takeWhile
          (fun o => !o.isPull) =
      (ProcessRepositoryPlain
        ⟨true, true, true, some "refs/remotes/origin/main", none,
         fun _ => false, fun _ => none, none, none⟩ "/repos/a" ["main"]).2.takeWhile
          (fun o => !o.isPull) ∧
    (ProcessRepository
        ⟨true, true, true, some "refs/remotes/origin/main", none,
         fun _ => false, fun _ => none, none, none⟩ "/repos/a" ["main"]).1 =
      (ProcessRepositoryPlain
        ⟨true, true, true, some "refs/remotes/origin/main", none,
         fun _ => false, fun _ => none, none, none⟩ "/repos/a" ["main"]).1 := by
  exact processRepository_variants _ _ _ rfl

/-! ## Batch-orchestrator invariants -/

/-- A scheduler run preserves the multiset of work: collected outcomes
plus the outcomes still owed by running and pending tasks. -/
theorem runSched_perm (K : Nat) (f : String → RepoResult)
    (cs : List SchedChoice) :
    ∀ s s2, runSched K f cs s = some s2 →
      (s2.done ++ (s2.running ++ s2.pending).map f).Perm
        (s.done ++ (s.running ++ s.pending).map f) := by
  induction cs with
  | nil =>
    intro s s2 h
    simp only [runSched, Option.some.injEq] at h
    subst h
    exact List.Perm.refl _
  | cons c cs ih =>
    intro s s2 h
    rw [runSched] at h
    cases hstep : stepBatch K f s c with
    | none => rw [hstep] at h; cases h
    | some s1 =>
      rw [hstep] at h
      refine (ih s1 s2 h).trans ?_
      cases c with
      | dispatch =>
        cases hp : s.pending with
        | nil => rw [stepBatch, hp] at hstep; cases hstep
        | cons t ts =>
          rw [stepBatch, hp] at hstep
          dsimp only at hstep
          by_cases hK : s.running.length < K
          · rw [if_pos hK] at hstep
            cases hstep
            simp [List.append_assoc]
          · rw [if_neg hK] at hstep; cases hstep
      | complete t =>
        rw [stepBatch] at hstep
        by_cases hm : t ∈ s.running
        · rw [if_pos hm] at hstep
          cases hstep
          have hmain : (f t :: (s.running.erase t).map f).Perm (s.running.map f) :=
            ((List.perm_cons_erase hm).map f).symm
          simp only [List.map_append, List.append_assoc, List.singleton_append]
          refine List.Perm.append_left _ ?_
          have := hmain.append_right (s.pending.map f)
          simpa using this
        · rw [if_neg hm] at hstep; cases hstep

/-- A scheduler run never lets the running set outgrow the concurrency
limit. -/
theorem runSched_running_le (K : Nat) (f : String → RepoResult)
    (cs : List SchedChoice) :
    ∀ s s2, runSched K f cs s = some s2 →
      s.running.length ≤ K → s2.running.length ≤ K := by
  induction cs with
  | nil =>
    intro s s2 h hle
    simp only [runSched, Option.some.injEq] at h
    subst h
    exact hle
  | cons c cs ih =>
    intro s s2 h hle
    rw [runSched] at h
    cases hstep : stepBatch K f s c with
    | none => rw [hstep] at h; cases h
    | some s1 =>
      rw [hstep] at h
      refine ih s1 s2 h ?_
      cases c with
      | dispatch =>
        cases hp : s.pending with
        | nil => rw [stepBatch, hp] at hstep; cases hstep
        | cons t ts =>
          rw [stepBatch, hp] at hstep
          dsimp only at hstep
          by_cases hK : s.running.length < K
          · rw [if_pos hK] at hstep
            cases hstep
            simpa using hK
          · rw [if_neg hK] at hstep; cases hstep
      | complete t =>
        rw [stepBatch] at hstep
        by_cases hm : t ∈ s.running
        · rw [if_pos hm] at hstep
          cases hstep
          exact le_trans ((List.erase_sublist t s.running).length_le) hle
        · rw [if_neg hm] at hstep; cases hstep

/-- The outcome record always carries the task path it was produced
for. -/
theorem procOutcome_Path (world : String → RepoGit) (fb : List String)
    (p : String) : (procOutcome world fb p).Path = p := by
  unfold procOutcome ProcessRepository
  repeat' split
  all_goals rfl

/-! ## C2: one outcome per task, complete drain -/

/-- Claim C2: whenever the batch over N repository tasks reaches its
reporting point (with any concurrency limit 1 ≤ K ≤ N and any schedule),
it produces exactly one outcome per task: the two reported partitions
together are a permutation of the per-task outcomes, their sizes sum to
N, the multiset of outcome paths is exactly the multiset of task paths
(nothing duplicated, nothing missing), the first partition holds exactly
the successful outcomes and the second exactly the failed ones, and
reporting happens only from a fully drained state: nothing pending and
nothing still running. -/
theorem runBatch_outcomes (world : String → RepoGit) (fb : List String)
    (tasks : List String) (K : Nat) (sched : List SchedChoice)
    (succ failed : List RepoResult)
    (hK1 : 1 ≤ K) (hK2 : K ≤ tasks.length)
    (h : runBatch K (procOutcome world fb) tasks sched = some (succ, failed)) :
    (succ ++ failed).Perm (tasks.map (procOutcome world fb)) ∧
    succ.length + failed.length = tasks.length ∧
    ((succ ++ failed).map RepoResult.Path).Perm tasks ∧
    (∀ r ∈ succ, r.Success = true) ∧
    (∀ r ∈ failed, r.Success = false) ∧
    (∃ s, runSched K (procOutcome world fb) sched (initState tasks) = some s ∧
      s.pending = [] ∧ s.running = []) := by
  unfold runBatch at h
  cases hs : runSched K (procOutcome world fb) sched (initState tasks) with
  | none => rw [hs] at h; cases h
  | some s =>
    rw [hs] at h
    dsimp only at h
    cases hb : batchDone s with
    | false => rw [hb] at h; simp at h
    | true =>
      rw [hb] at h
      rw [if_pos rfl] at h
      simp only [Option.some.injEq, List.partition_eq_filter_filter,
        Prod.mk.injEq] at h
      obtain ⟨hsucc, hfail⟩ := h
      have hpend : s.pending = [] := by
        have := hb
        unfold batchDone at this
        simp only [Bool.and_eq_true, List.isEmpty_iff] at this
        exact this.1
      have hrun : s.running = [] := by
        have := hb
        unfold batchDone at this
        simp only [Bool.and_eq_true, List.isEmpty_iff] at this
        exact this.2
      have hdone : s.done.Perm (tasks.map (procOutcome world fb)) := by
        have := runSched_perm K (procOutcome world fb) sched _ _ hs
        simpa [initState, hpend, hrun] using this
      simp only [Function.comp_def] at hfail
      have hsf : (succ ++ failed).Perm s.done := by
        rw [← hsucc, ← hfail]
        exact List.filter_append_perm _ _
      refine ⟨hsf.trans hdone, ?_, ?_, ?_, ?_, ⟨s, rfl, hpend, hrun⟩⟩
      · have := (hsf.trans hdone).length_eq
        simpa using this
      · have hm := (hsf.trans hdone).map RepoResult.Path
        rw [List.map_map] at hm
        have he : tasks.map (RepoResult.Path ∘ procOutcome world fb) = tasks := by
          simp [Function.comp_def, procOutcome_Path]
        rw [he] at hm
        exact hm
      · intro r hr
        rw [← hsucc] at hr
        exact (List.mem_filter.mp hr).2
      · intro r hr
        rw [← hfail] at hr
        have := (List.mem_filter.mp hr).2
        simpa using this

/-- Witness for C2: two no-origin repositories run under concurrency
limit 1 with an explicit interleaving; the batch reports exactly one
failed outcome per task and no successes. -/
theorem runBatch_outcomes_witness :
    runBatch 1 (procOutcome (fun _ => sampleNoOrigin) ["main"]) ["/r1", "/r2"]
        [SchedChoice.dispatch, SchedChoice.complete "/r1",
         SchedChoice.dispatch, SchedChoice.complete "/r2"] =
      some ([], [⟨"/r1", "", false, "No origin remote"⟩,
                 ⟨"/r2", "", false, "No origin remote"⟩]) ∧
    (([] ++ [⟨"/r1", "", false, "No origin remote"⟩,
             ⟨"/r2", "", false, "No origin remote"⟩] : List RepoResult)).Perm
      (["/r1", "/r2"].map (procOutcome (fun _ => sampleNoOrigin) ["main"])) := by
  refine ⟨by decide, ?_⟩
  exact (runBatch_outcomes (fun _ => sampleNoOrigin) ["main"] ["/r1", "/r2"] 1
    [SchedChoice.dispatch, SchedChoice.complete "/r1",
     SchedChoice.dispatch, SchedChoice.complete "/r2"]
    [] [⟨"/r1", "", false, "No origin remote"⟩,
        ⟨"/r2", "", false, "No origin remote"⟩]
    (by decide) (by decide) (by decide)).1

/-! ## C3: the concurrency bound -/

/-- Claim C3: in every state reachable by the scheduler from the initial
batch state, at most K repository updates are running; a dispatch can
succeed only while a slot is free (so a task enters the running set only
by acquiring one of the K slots); once the limit is reached dispatching
is blocked while completing any running task is still possible; and a
completion always releases its slot, shrinking the running set by one
regardless of the outcome the task produced. -/
theorem runSched_concurrencyBound (world : String → RepoGit)
    (fb : List String) (K : Nat) (tasks : List String)
    (sched : List SchedChoice) (s : BatchState) (hK : 1 ≤ K)
    (h : runSched K (procOutcome world fb) sched (initState tasks) = some s) :
    s.running.length ≤ K ∧
    (∀ s2, stepBatch K (procOutcome world fb) s SchedChoice.dispatch = some s2 →
      s.running.length < K) ∧
    (s.running.length = K →
      stepBatch K (procOutcome world fb) s SchedChoice.dispatch = none) ∧
    (∀ t ∈ s.running, ∃ s2,
      stepBatch K (procOutcome world fb) s (SchedChoice.complete t) = some s2 ∧
      s2.running.length + 1 = s.running.length) := by
  refine ⟨runSched_running_le K _ sched _ s h (by simp [initState]), ?_, ?_, ?_⟩
  · intro s2 hstep
    rw [stepBatch] at hstep
    cases hp : s.pending with
    | nil => rw [hp] at hstep; cases hstep
    | cons t ts =>
      rw [hp] at hstep
      dsimp only at hstep
      by_cases hlt : s.running.length < K
      · exact hlt
      · rw [if_neg hlt] at hstep; cases hstep
  · intro hfull
    rw [stepBatch]
    cases hp : s.pending with
    | nil => rfl
    | cons t ts =>
      dsimp only
      rw [if_neg (by rw [hfull]; exact lt_irrefl K)]
  · intro t ht
    refine ⟨⟨s.pending, s.running.erase t, s.done ++ [procOutcome world fb t]⟩,
      ?_, ?_⟩
    · rw [stepBatch, if_pos ht]
    · rw [List.length_erase_of_mem ht]
      have hpos : 0 < s.running.length := List.length_pos.mpr (by
        intro hnil
        rw [hnil] at ht
        cases ht)
      omega

/-- Witness for C3: one dispatched, one still pending under limit 1: the
running set is at the limit, a further dispatch is refused, and
completing the running task frees its slot. -/
theorem runSched_concurrencyBound_witness :
    (⟨["/r2"], ["/r1"], []⟩ : BatchState).running.length ≤ 1 ∧
    (∀ s2, stepBatch 1 (procOutcome (fun _ => sampleNoOrigin) ["main"])
        ⟨["/r2"], ["/r1"], []⟩ SchedChoice.dispatch = some s2 →
      (⟨["/r2"], ["/r1"], []⟩ : BatchState).running.length < 1) ∧
    ((⟨["/r2"], ["/r1"], []⟩ : BatchState).running.length = 1 →
      stepBatch 1 (procOutcome (fun _ => sampleNoOrigin) ["main"])
        ⟨["/r2"], ["/r1"], []⟩ SchedChoice.dispatch = none) ∧
    (∀ t ∈ (⟨["/r2"], ["/r1"], []⟩ : BatchState).running, ∃ s2,
      stepBatch 1 (procOutcome (fun _ => sampleNoOrigin) ["main"])
        ⟨["/r2"], ["/r1"], []⟩ (SchedChoice.complete t) = some s2 ∧
      s2.running.length + 1 =
        (⟨["/r2"], ["/r1"], []⟩ : BatchState).running.length) := by
  exact runSched_concurrencyBound (fun _ => sampleNoOrigin) ["main"] 1
    ["/r1", "/r2"] [SchedChoice.dispatch] ⟨["/r2"], ["/r1"], []⟩
    (by decide) (by decide)

/-! ## String-containment lemmas

The idempotence of the bootstrap rests on one string fact: a path
contains its own base filename as a substring, so the identity comment
recorded for an added key matches the already-loaded test on the next
invocation. -/

/-- The empty needle is contained in every haystack. -/
theorem strContainsList_nilNeedle (hay : List Char) :
    strContainsList hay [] = true := by
  cases hay <;> simp [strContainsList, listHasPre]

/-- A list is a prefix of itself followed by anything. -/
theorem listHasPre_append (m r : List Char) :
    listHasPre m (m ++ r) = true := by
  induction m with
  | nil => rfl
  | cons a as ih => simp [listHasPre, ih]

/-- Containment holds for any explicit infix decomposition. -/
theorem strContainsList_of_append (L M R : List Char) :
    strContainsList (L ++ M ++ R) M = true := by
  induction L with
  | nil =>
    cases M with
    | nil => simpa using strContainsList_nilNeedle R
    | cons m ms =>
      show strContainsList (m :: (ms ++ R)) (m :: ms) = true
      rw [strContainsList]
      have hpre := listHasPre_append (m :: ms) R
      rw [List.cons_append] at hpre
      rw [hpre, Bool.true_or]
  | cons c L ih =>
    show strContainsList (c :: (L ++ M ++ R)) M = true
    rw [strContainsList, ih, Bool.or_true]

/-- Any non-empty character list decomposes around its own base-filename
segment. -/
theorem baseChars_decomp (cs : List Char) (h : cs ≠ []) :
    ∃ L R, cs = L ++ baseChars cs ++ R := by
  have h0 : cs.reverse.takeWhile (fun c => c == '/') ++
      cs.reverse.dropWhile (fun c => c == '/') = cs.reverse := by
    rw [List.takeWhile_append_dropWhile]
  have h1 : cs = dropSlashesEnd cs ++ (cs.reverse.takeWhile (fun c => c == '/')).reverse := by
    unfold dropSlashesEnd
    conv_lhs => rw [← List.reverse_reverse cs, ← h0]
    rw [List.reverse_append]
  have hie : cs.isEmpty = false := by
    cases cs with
    | nil => exact absurd rfl h
    | cons a as => rfl
  by_cases hs : (dropSlashesEnd cs).isEmpty = true
  · have hsnil : dropSlashesEnd cs = [] := by
      cases hd : dropSlashesEnd cs with
      | nil => rfl
      | cons a as => rw [hd] at hs; cases hs
    have hcs : cs = (cs.reverse.takeWhile (fun c => c == '/')).reverse := by
      conv_lhs => rw [h1, hsnil]
      rw [List.nil_append]
    have hbc : baseChars cs = ['/'] := by
      simp [baseChars, hie, hs]
    obtain ⟨a, as, hc⟩ := List.exists_cons_of_ne_nil h
    have ha : a = '/' := by
      have hmem0 : a ∈ cs := by rw [hc]; exact List.mem_cons_self a as
      have hmem : a ∈ cs.reverse.takeWhile (fun c => c == '/') := by
        have hin : a ∈ (cs.reverse.takeWhile (fun c => c == '/')).reverse := by
          rw [← hcs]; exact hmem0
        simpa using hin
      have hp := List.mem_takeWhile_imp hmem
      simpa using hp
    refine ⟨[], as, ?_⟩
    rw [hbc, hc, ha]
    rfl
  · have hs2 : (dropSlashesEnd cs).isEmpty = false := by
      cases hd : (dropSlashesEnd cs).isEmpty with
      | false => rfl
      | true => exact absurd hd hs
    have hbc : baseChars cs = lastComp (dropSlashesEnd cs) := by
      simp [baseChars, hie, hs2]
    have h2 : (dropSlashesEnd cs).reverse.takeWhile (fun c => c != '/') ++
        (dropSlashesEnd cs).reverse.dropWhile (fun c => c != '/') =
          (dropSlashesEnd cs).reverse := by
      rw [List.takeWhile_append_dropWhile]
    have h3 : dropSlashesEnd cs =
        ((dropSlashesEnd cs).reverse.dropWhile (fun c => c != '/')).reverse ++
          lastComp (dropSlashesEnd cs) := by
      unfold lastComp
      conv_lhs => rw [← List.reverse_reverse (dropSlashesEnd cs), ← h2]
      rw [List.reverse_append]
    refine ⟨((dropSlashesEnd cs).reverse.dropWhile (fun c => c != '/')).reverse,
      (cs.reverse.takeWhile (fun c => c == '/')).reverse, ?_⟩
    rw [hbc]
    conv_lhs => rw [h1, h3]

/-- A non-empty path contains its own base filename: the comment a stock
agent attaches to a key added by path therefore matches the
already-loaded test of EnsureAgentAndKey. -/
theorem strContains_pathBase (p : String) (h : p ≠ "") :
    strContains p (pathBase p) = true := by
  have hd : p.data ≠ [] := by
    intro hnil
    apply h
    cases p
    simp at hnil
    simp [hnil]
  obtain ⟨L, R, hLR⟩ := baseChars_decomp p.data hd
  have := strContainsList_of_append L (baseChars p.data) R
  rw [← hLR] at this
  exact this

/-! ## Bootstrap lemmas -/

/-- A doubly negated boolean test is an affirmative one. -/
theorem bool_true_of_not_bnot (b : Bool) (h : ¬((!b) = true)) : b = true := by
  cases b with
  | false => exact absurd rfl h
  | true => rfl

/-- Parsing the agent announcement only touches the environment
variables: every other component of the world is unchanged. -/
theorem parseAgentLines_pres (lines : List String) : ∀ w : AgentWorld,
    (parseAgentLines w lines).homeDir = w.homeDir ∧
    (parseAgentLines w lines).keyExists = w.keyExists ∧
    (parseAgentLines w lines).dialOk = w.dialOk ∧
    (parseAgentLines w lines).listOk = w.listOk ∧
    (parseAgentLines w lines).agentKeys = w.agentKeys ∧
    (parseAgentLines w lines).addOk = w.addOk := by
  induction lines with
  | nil => intro w; exact ⟨rfl, rfl, rfl, rfl, rfl, rfl⟩
  | cons line rest ih =>
    intro w
    rw [parseAgentLines]
    by_cases hsock : strContains line "SSH_AUTH_SOCK=" = true
    · rw [if_pos hsock]
      cases hv : envLineValue line with
      | none => simpa using ih w
      | some v => simpa using ih { w with authSock := v }
    · rw [if_neg hsock]
      by_cases hpid : strContains line "SSH_AGENT_PID=" = true
      · rw [if_pos hpid]
        cases hv : envLineValue line with
        | none => simpa using ih w
        | some v => simpa using ih { w with agentPid := v }
      · rw [if_neg hpid]
        exact ih w

/-- When the reachability stage succeeds it only establishes the socket:
everything else is carried over, and the socket it hands back is
non-empty. -/
theorem ensureAuthSock_spec (w w1 : AgentWorld)
    (h : ensureAuthSock w = Except.ok w1) :
    w1.homeDir = w.homeDir ∧ w1.keyExists = w.keyExists ∧
    w1.dialOk = w.dialOk ∧ w1.listOk = w.listOk ∧
    w1.agentKeys = w.agentKeys ∧ w1.addOk = w.addOk ∧
    (w1.authSock == "") = false := by
  unfold ensureAuthSock at h
  by_cases hs : (w.authSock == "") = true
  · rw [if_pos hs] at h
    cases hst : startSSHAgent w with
    | error e => rw [hst] at h; cases h
    | ok w2 =>
      rw [hst] at h
      dsimp only at h
      by_cases h2 : (w2.authSock == "") = true
      · rw [if_pos h2] at h; cases h
      · rw [if_neg h2] at h
        injection h with hw
        subst hw
        unfold startSSHAgent at hst
        cases hso : w.startAgentOutput with
        | none => rw [hso] at hst; cases hst
        | some out =>
          rw [hso] at hst
          dsimp only at hst
          by_cases h3 :
              ((parseAgentLines w (splitStr '\n' out)).authSock == "") = true
          · rw [if_pos h3] at hst; cases hst
          · rw [if_neg h3] at hst
            injection hst with hw2
            obtain ⟨p1, p2, p3, p4, p5, p6⟩ :=
              parseAgentLines_pres (splitStr '\n' out) w
            rw [← hw2]
            exact ⟨p1, p2, p3, p4, p5, p6, by rw [← hw2] at h2; simpa using h2⟩
  · rw [if_neg hs] at h
    injection h with hw
    subst hw
    refine ⟨rfl, rfl, rfl, rfl, rfl, rfl, ?_⟩
    simpa using hs

/-- Tilde expansion depends only on the home directory. -/
theorem expandKeyPath_congr (a b : AgentWorld) (keyArg : String)
    (h : a.homeDir = b.homeDir) :
    expandKeyPath a keyArg = expandKeyPath b keyArg := by
  unfold expandKeyPath
  rw [h]

/-- A bootstrap invocation on a world whose agent is reachable, listable,
and already holds a matching identity succeeds without touching the
world. -/
theorem ensureAgentAndKey_ok_of_loaded (v : AgentWorld) (keyArg : String)
    (hk : v.keyExists (expandKeyPath v keyArg) = true)
    (hs : (v.authSock == "") = false)
    (hd : v.dialOk v.authSock = true)
    (hl : v.listOk = true)
    (hload : (v.agentKeys.any fun k =>
      strContains k (pathBase (expandKeyPath v keyArg))) = true) :
    EnsureAgentAndKey v keyArg = Except.ok v := by
  have hsock : ensureAuthSock v = Except.ok v := by
    unfold ensureAuthSock
    rw [if_neg (by simp [hs])]
  simp only [EnsureAgentAndKey, hk, hsock, hd, hl, hload, Bool.not_true,
    Bool.false_eq_true, if_false]
  rw [if_pos trivial]

/-! ## C6: bootstrap idempotence -/

/-- Claim C6: EnsureAgentAndKey is idempotent.  If the key's base
filename already appears in a held identity's comment, the successful
call registers nothing and leaves the agent's key set untouched; in
every successful call the key is registered at most once; and a second
call right after a successful one is a no-op that succeeds returning the
same world. -/
theorem ensureAgentAndKey_idempotent (w w2 : AgentWorld) (keyArg : String)
    (hne : expandKeyPath w keyArg ≠ "")
    (h1 : EnsureAgentAndKey w keyArg = Except.ok w2) :
    EnsureAgentAndKey w2 keyArg = Except.ok w2 ∧
    (w2.agentKeys = w.agentKeys ∨
      w2.agentKeys = w.agentKeys ++ [expandKeyPath w keyArg]) ∧
    ((w.agentKeys.any fun k =>
        strContains k (pathBase (expandKeyPath w keyArg))) = true →
      w2.agentKeys = w.agentKeys) := by
  rw [EnsureAgentAndKey] at h1
  by_cases hk : (!w.keyExists (expandKeyPath w keyArg)) = true
  · rw [if_pos hk] at h1; cases h1
  · rw [if_neg hk] at h1
    have hk' := bool_true_of_not_bnot _ hk
    cases hauth : ensureAuthSock w with
    | error e => rw [hauth] at h1; cases h1
    | ok w1 =>
      rw [hauth] at h1
      dsimp only at h1
      obtain ⟨e1, e2, e3, e4, e5, e6, e7⟩ := ensureAuthSock_spec w w1 hauth
      by_cases hdial : (!w1.dialOk w1.authSock) = true
      · rw [if_pos hdial] at h1; cases h1
      · rw [if_neg hdial] at h1
        have hdial' := bool_true_of_not_bnot _ hdial
        by_cases hlist : (!w1.listOk) = true
        · rw [if_pos hlist] at h1; cases h1
        · rw [if_neg hlist] at h1
          have hlist' := bool_true_of_not_bnot _ hlist
          by_cases hload : (w1.agentKeys.any fun k =>
              strContains k (pathBase (expandKeyPath w keyArg))) = true
          · rw [if_pos hload] at h1
            injection h1 with hw
            have hexp : expandKeyPath w2 keyArg = expandKeyPath w keyArg :=
              expandKeyPath_congr w2 w keyArg (by rw [← hw]; exact e1)
            refine ⟨?_, Or.inl (hw ▸ e5), fun _ => hw ▸ e5⟩
            refine ensureAgentAndKey_ok_of_loaded w2 keyArg ?_ ?_ ?_ ?_ ?_
            · rw [hexp, ← hw, e2]; exact hk'
            · rw [← hw]; exact e7
            · rw [← hw]; exact hdial'
            · rw [← hw]; exact hlist'
            · rw [hexp, ← hw]; exact hload
          · rw [if_neg hload] at h1
            by_cases hadd : w1.addOk = true
            · rw [if_pos hadd] at h1
              injection h1 with hw
              have hexp : expandKeyPath w2 keyArg = expandKeyPath w keyArg :=
                expandKeyPath_congr w2 w keyArg (by rw [← hw]; exact e1)
              have hkeys : w2.agentKeys =
                  w.agentKeys ++ [expandKeyPath w keyArg] := by
                rw [← hw]
                show w1.agentKeys ++ [expandKeyPath w keyArg] =
                  w.agentKeys ++ [expandKeyPath w keyArg]
                rw [e5]
              refine ⟨?_, Or.inr hkeys, fun hc => absurd (e5 ▸ hc) hload⟩
              refine ensureAgentAndKey_ok_of_loaded w2 keyArg ?_ ?_ ?_ ?_ ?_
              · rw [hexp, ← hw]
                show w1.keyExists (expandKeyPath w keyArg) = true
                rw [e2]; exact hk'
              · rw [← hw]
                show (w1.authSock == "") = false
                exact e7
              · rw [← hw]
                show w1.dialOk w1.authSock = true
                exact hdial'
              · rw [← hw]
                show w1.listOk = true
                exact hlist'
              · rw [hexp, hkeys, List.any_append]
                have hself : strContains (expandKeyPath w keyArg)
                    (pathBase (expandKeyPath w keyArg)) = true :=
                  strContains_pathBase _ hne
                simp [hself]
            · rw [if_neg hadd] at h1; cases h1

/-- Witness for C6: a fresh agent holding no identities; the first call
adds the tilde-expanded key, the second call is a no-op returning the
same world. -/
theorem ensureAgentAndKey_idempotent_witness :
    EnsureAgentAndKey
        ⟨"/home/u", fun _ => true, "/tmp/agent.sock", "", none,
         fun _ => true, true, ["/home/u/.ssh/id_ed25519"], true⟩
        "~/.ssh/id_ed25519" =
      Except.ok
        ⟨"/home/u", fun _ => true, "/tmp/agent.sock", "", none,
         fun _ => true, true, ["/home/u/.ssh/id_ed25519"], true⟩ ∧
    ((⟨"/home/u", fun _ => true, "/tmp/agent.sock", "", none,
       fun _ => true, true, ["/home/u/.ssh/id_ed25519"], true⟩ :
        AgentWorld).agentKeys =
      (⟨"/home/u", fun _ => true, "/tmp/agent.sock", "", none,
        fun _ => true, true, [], true⟩ : AgentWorld).agentKeys ∨
     (⟨"/home/u", fun _ => true, "/tmp/agent.sock", "", none,
       fun _ => true, true, ["/home/u/.ssh/id_ed25519"], true⟩ :
        AgentWorld).agentKeys =
      (⟨"/home/u", fun _ => true, "/tmp/agent.sock", "", none,
        fun _ => true, true, [], true⟩ : AgentWorld).agentKeys ++
        [expandKeyPath
          ⟨"/home/u", fun _ => true, "/tmp/agent.sock", "", none,
           fun _ => true, true, [], true⟩ "~/.ssh/id_ed25519"]) ∧
    (((⟨"/home/u", fun _ => true, "/tmp/agent.sock", "", none,
        fun _ => true, true, [], true⟩ : AgentWorld).agentKeys.any fun k =>
        strContains k (pathBase (expandKeyPath
          ⟨"/home/u", fun _ => true, "/tmp/agent.sock", "", none,
           fun _ => true, true, [], true⟩ "~/.ssh/id_ed25519"))) = true →
      (⟨"/home/u", fun _ => true, "/tmp/agent.sock", "", none,
        fun _ => true, true, ["/home/u/.ssh/id_ed25519"], true⟩ :
          AgentWorld).agentKeys =
        (⟨"/home/u", fun _ => true, "/tmp/agent.sock", "", none,
          fun _ => true, true, [], true⟩ : AgentWorld).agentKeys) := by
  exact ensureAgentAndKey_idempotent
    ⟨"/home/u", fun _ => true, "/tmp/agent.sock", "", none,
     fun _ => true, true, [], true⟩
    ⟨"/home/u", fun _ => true, "/tmp/agent.sock", "", none,
     fun _ => true, true, ["/home/u/.ssh/id_ed25519"], true⟩
    "~/.ssh/id_ed25519" (by decide) (by rfl)

/-! ## C7: the bootstrap is a barrier -/

/-- Claim C7: on every run of main, the credential-agent bootstrap is the
first event and happens exactly once; and whenever the bootstrap fails,
the run exits with a non-zero status right after printing the fatal
message: repository discovery never happens and no repository is ever
processed. -/
theorem mainRun_bootstrapFirst (w : MainWorld) (sched : List SchedChoice)
    (ev : List MainEvent) (code : Nat)
    (h : mainRun w sched = some (ev, code)) :
    ev.head? = some MainEvent.agentInit ∧
    ev.count MainEvent.agentInit = 1 ∧
    (∀ e, EnsureAgentAndKey w.agent w.sshKeyFlag = Except.error e →
      code = 1 ∧
      ev = [MainEvent.agentInit,
            MainEvent.fatalExit ("SSH Agent setup failed: " ++ e)] ∧
      (∀ p, MainEvent.processed p ∉ ev) ∧ MainEvent.findRepos ∉ ev) := by
  rw [mainRun] at h
  cases hens : EnsureAgentAndKey w.agent w.sshKeyFlag with
  | error e0 =>
    rw [hens] at h
    dsimp only at h
    injection h with h'
    injection h' with hev hcode
    subst hev
    subst hcode
    refine ⟨rfl, by simp [List.count_cons], ?_⟩
    intro e he
    injection he with he'
    subst he'
    exact ⟨rfl, rfl, by simp, by simp⟩
  | ok a =>
    rw [hens] at h
    dsimp only at h
    cases hf : w.findResult with
    | error e1 =>
      rw [hf] at h
      dsimp only at h
      injection h with h'
      injection h' with hev hcode
      subst hev
      exact ⟨rfl, by simp [List.count_cons], fun e he => nomatch he⟩
    | ok gitDirs =>
      rw [hf] at h
      dsimp only at h
      by_cases hempty : gitDirs.isEmpty = true
      · rw [if_pos hempty] at h
        injection h with h'
        injection h' with hev hcode
        subst hev
        exact ⟨rfl, by simp [List.count_cons], fun e he => nomatch he⟩
      · rw [if_neg hempty] at h
        cases hrun : runSched w.concurrent
            (procOutcome w.gitWorld w.defaultBranches) sched
            (initState (gitDirs.map pathDir)) with
        | none => rw [hrun] at h; cases h
        | some s =>
          rw [hrun] at h
          dsimp only at h
          by_cases hdone : batchDone s = true
          · rw [if_pos hdone] at h
            injection h with h'
            injection h' with hev hcode
            subst hev
            have hnotin : MainEvent.agentInit ∉
                s.done.map (fun r => MainEvent.processed r.Path) := by
              simp
            refine ⟨rfl, ?_, fun e he => nomatch he⟩
            simp [List.count_append, List.count_cons,
              List.count_eq_zero.mpr hnotin]
          · rw [if_neg hdone] at h; cases h

/-- Witness for C7 at a concrete failing world: the key file is missing,
so the run emits the bootstrap event, prints the fatal message, exits
with status 1, and neither discovers nor processes any repository. -/
theorem mainRun_bootstrapFirst_witness :
    ([MainEvent.agentInit,
      MainEvent.fatalExit
        ("SSH Agent setup failed: SSH key does not exist: /no/key")].head? =
      some MainEvent.agentInit) ∧
    ([MainEvent.agentInit,
      MainEvent.fatalExit
        ("SSH Agent setup failed: SSH key does not exist: /no/key")].count
        MainEvent.agentInit = 1) ∧
    (∀ e, EnsureAgentAndKey
        ⟨"/home/u", fun _ => false, "/tmp/agent.sock", "", none,
         fun _ => true, true, [], true⟩ "/no/key" = Except.error e →
      (1 : Nat) = 1 ∧
      [MainEvent.agentInit,
       MainEvent.fatalExit
         ("SSH Agent setup failed: SSH key does not exist: /no/key")] =
        [MainEvent.agentInit,
         MainEvent.fatalExit ("SSH Agent setup failed: " ++ e)] ∧
      (∀ p, MainEvent.processed p ∉
        [MainEvent.agentInit,
         MainEvent.fatalExit
           ("SSH Agent setup failed: SSH key does not exist: /no/key")]) ∧
      MainEvent.findRepos ∉
        [MainEvent.agentInit,
         MainEvent.fatalExit
           ("SSH Agent setup failed: SSH key does not exist: /no/key")]) := by
  exact mainRun_bootstrapFirst
    ⟨⟨"/home/u", fun _ => false, "/tmp/agent.sock", "", none,
      fun _ => true, true, [], true⟩, "/no/key",
     Except.ok ["/w/.git"], fun _ => sampleNoOrigin, ["main"], 4⟩
    [] _ 1 (by rfl)

end Pullio










